import Mathlib

/-!
Verification of the finance-intelligence core: the risk engine
(`src/risk_engine.py`), the fusion/ETL pipeline (`src/etl_pipeline.py`) and
the opportunity scanner (`src/forecasting.py`).

Shallow embedding conventions:
* prices, sentiment scores and derived metrics are exact rationals `ℚ`
  (the source's float64 values, idealized); `ℝ` appears only where the
  source takes square roots;
* a missing value (pandas `NaN`) is `none : Option ℚ`;
* the file system is explicit state (an association list keyed by ticker),
  and fallible I/O is an injected `Except`-valued effect;
* the VADER sentiment scorer is an injected function `String → ℚ`,
  matching the spec's "swappable implementation" contract.
-/

/-! ## Risk engine (`src/risk_engine.py`) -/

/-- A column of a pandas data frame: each cell is a rational or `none` (NaN). -/
abbrev Col := List (Option ℚ)

/-- A data frame as the risk engine sees it: named columns, in order. -/
abbrev Frame := List (String × Col)

/-- `df[c]`: the column named `c`, if present. -/
def getCol (df : Frame) (c : String) : Option Col :=
  (df.find? (fun p => p.1 == c)).map (·.2)

/-- `c in df.columns`. -/
def hasCol (df : Frame) (c : String) : Bool :=
  (getCol df c).isSome

/-- `df[c] = v`: overwrite the column in place if it exists, else append it
at the end (pandas column-assignment semantics). -/
def setCol (df : Frame) (c : String) (v : Col) : Frame :=
  if df.any (fun p => p.1 == c) then
    df.map (fun p => if p.1 == c then (c, v) else p)
  else df ++ [(c, v)]

/-- Forward-fill a column without a limit (pandas `pad`), carrying the most
recent non-null value.  `pct_change()` pads its input before differencing. -/
def padCol : Option ℚ → Col → Col
  | _, [] => []
  | carry, none :: rest => carry :: padCol carry rest
  | _, some x :: rest => some x :: padCol (some x) rest

/-- One `pct_change` cell: `(b - a) / a` from consecutive (padded) closes.
`none` when either side is missing.  A zero previous close gives a non-finite
IEEE value in the source (NaN when `b = a`, ±inf otherwise); the ±inf case
is outside this rational embedding and is excluded by the nonzero-price
hypotheses of the theorems that depend on it. -/
def retCell : Option ℚ → Option ℚ → Option ℚ
  | some a, some b => if a = 0 then none else some ((b - a) / a)
  | _, _ => none

/-- `series.pct_change()`: pad, then the ratio of consecutive cells; the
first cell is always `none`. -/
def pctChange (xs : Col) : Col :=
  let p := padCol none xs
  (List.zip (none :: p) p).map (fun q => retCell q.1 q.2)

/-- `series.dropna()`. -/
def dropna (xs : Col) : List ℚ :=
  xs.filterMap id

/-- Mean of a list of rationals (only ever used on nonempty lists, where it
agrees with pandas `mean`). -/
def lmean (xs : List ℚ) : ℚ :=
  xs.sum / (xs.length : ℚ)

/-- `np.percentile(xs, q)` with the default linear interpolation between
order statistics, on a nonempty sample. -/
def percentile (xs : List ℚ) (q : ℚ) : ℚ :=
  let s := List.insertionSort (fun a b => a ≤ b) xs
  let h : ℚ := ((s.length : ℚ) - 1) * q / 100
  let lo : ℤ := ⌊h⌋
  let xlo := s.getD lo.toNat 0
  let xhi := s.getD ⌈h⌉.toNat 0
  xlo + (h - (lo : ℚ)) * (xhi - xlo)

/-- Sample variance with `ddof = 1` (the default of pandas `Series.std`,
squared): `none` models the NaN that pandas returns on fewer than two
observations. -/
def svar (xs : List ℚ) : Option ℚ :=
  if xs.length < 2 then none
  else some ((xs.map (fun x => (x - lmean xs) ^ 2)).sum / ((xs.length : ℚ) - 1))

/-- The dictionary returned by `calculate_risk_metrics`.  `volatility` and
`sharpe` involve square roots, hence `ℝ`; `none` models a NaN entry. -/
structure RiskMetrics where
  var_95 : ℚ
  volatility : Option ℝ
  sharpe : Option ℝ

/-- `calculate_risk_metrics(df, risk_free_rate)`.  The second component of
the result is the caller's data frame *after* the call (the source assigns
`df['Returns']` in place, so the input frame is threaded as state).
`Series.std() == 0` is modelled as the (nonnegative) sample variance being
zero, and a NaN standard deviation (fewer than two returns) propagates to
`volatility` and `sharpe` exactly as NaN does through `*`, `/` and a
`== 0` test in the source. -/
noncomputable def calculate_risk_metrics (df : Frame) (risk_free_rate : ℚ) :
    RiskMetrics × Frame :=
  match getCol df "Close" with
  | none => (⟨0, some 0, some 0⟩, df)
  | some close =>
    let returnsCol := pctChange close
    let df1 := setCol df "Returns" returnsCol
    let clean := dropna returnsCol
    if clean = [] then (⟨0, some 0, some 0⟩, df1)
    else
      let var95 := percentile clean 5
      let vol : Option ℝ := (svar clean).map (fun v => Real.sqrt (v : ℝ) * Real.sqrt 252)
      let excess : ℚ := lmean clean - risk_free_rate / 252
      let sharpeVal : Option ℝ :=
        match svar clean with
        | none => none
        | some v =>
          if v = 0 then some 0
          else some (((excess : ℝ) / Real.sqrt (v : ℝ)) * Real.sqrt 252)
      (⟨var95, vol, sharpeVal⟩, df1)

/-! ## Fusion pipeline (`src/etl_pipeline.py`) -/

/-- A raw price cell: numeric, or free text (e.g. a non-numeric `Close`
value in one ticker's rows).  The pipeline passes price fields through
untouched, so text cells flow through it without error. -/
inductive Cell where
  | num (q : ℚ)
  | text (s : String)
deriving DecidableEq, Repr

/-- One row of the raw price file, after the global date normalization:
`Stock Name`, calendar date (ordinal day) and the OHLCV price fields,
which the pipeline carries through untouched. -/
structure StockRow where
  name : String
  date : ℤ
  px : List Cell
deriving DecidableEq, Repr

/-- One row of the raw posts file after date normalization. -/
structure TweetRow where
  name : String
  date : ℤ
  tweet : String
deriving DecidableEq, Repr

/-- `df_stocks['Stock Name'].unique()`: distinct tickers of the price rows,
first occurrence first. -/
def uniqueTickers : List StockRow → List String
  | [] => []
  | r :: rest => r.name :: (uniqueTickers rest).filter (fun s => s != r.name)

/-- Mean daily sentiment of ticker `t` on date `d`: the mean of the scores
of the matching posts, `none` when the `(ticker, date)` group is empty
(the left join leaves such days null). -/
def dailySent (senti : String → ℚ) (tweets : List TweetRow) (t : String) (d : ℤ) :
    Option ℚ :=
  let g := tweets.filter (fun w => w.name == t && w.date == d)
  if g = [] then none else some (lmean (g.map (fun w => senti w.tweet)))

/-- `ffill(limit)` as a forward scan: `carry` is the most recent non-null
value seen so far and `gap` counts the consecutive nulls immediately before
the current cell. -/
def ffillGo (limit : ℕ) : Option ℚ → ℕ → Col → Col
  | _, _, [] => []
  | _, _, some x :: rest => some x :: ffillGo limit (some x) 0 rest
  | carry, gap, none :: rest =>
    (if gap < limit then carry else none) :: ffillGo limit carry (gap + 1) rest

/-- `series.ffill(limit=limit)`. -/
def ffillLimit (limit : ℕ) (xs : Col) : Col :=
  ffillGo limit none 0 xs

/-- `series.fillna(d)`. -/
def fillna (d : ℚ) (xs : Col) : List ℚ :=
  xs.map (fun x => x.getD d)

/-- Steps D of the pipeline on the date-sorted sentiment column:
`ffill(limit=7)` then `fillna(0)` ("market memory"). -/
def marketMemory (xs : Col) : List ℚ :=
  fillna 0 (ffillLimit 7 xs)

/-- The most recent non-null value of a column (used to characterize the
scan state of `ffillGo`). -/
def lastSomeVal (l : Col) : Option ℚ :=
  l.reverse.findSome? id

/-- The number of trailing nulls of a column (the scan state `gap` of
`ffillGo` after consuming `l`). -/
def trailingNones (l : Col) : ℕ :=
  (l.reverse.takeWhile (fun x => x.isNone)).length

/-- The merged, date-sorted rows of one ticker, paired with the filled
sentiment column: filter the price rows to the ticker, left-join the daily
mean sentiment on date, sort by date, then apply the market memory. -/
def processedRows (senti : String → ℚ) (stocks : List StockRow)
    (tweets : List TweetRow) (t : String) : List (StockRow × ℚ) :=
  let ss := List.insertionSort (fun a b : StockRow => a.date ≤ b.date)
    (stocks.filter (fun r => r.name == t))
  ss.zip (marketMemory (ss.map (fun r => dailySent senti tweets t r.date)))

/-- The body of the per-ticker loop: `ok none` models the `continue` taken
when a ticker has no price rows; `error` models an exception inside the
`try` block.  On well-formed in-memory inputs the only genuinely fallible
step of the source's loop body is the `to_csv` write, modelled by the
injected `persistOk` effect. -/
def processTicker (senti : String → ℚ) (stocks : List StockRow)
    (tweets : List TweetRow) (persistOk : String → Except String Unit)
    (t : String) : Except String (Option (List (StockRow × ℚ))) :=
  if stocks.filter (fun r => r.name == t) = [] then .ok none
  else
    match persistOk t with
    | .error e => .error e
    | .ok _ => .ok (some (processedRows senti stocks tweets t))

/-- The processed-data directory: one persisted table per ticker. -/
abbrev FS := List (String × List (StockRow × ℚ))

/-- Overwrite-or-create the persisted table of ticker `t`. -/
def writeFS (fs : FS) (t : String) (rows : List (StockRow × ℚ)) : FS :=
  if fs.any (fun p => p.1 == t) then
    fs.map (fun p => if p.1 == t then (t, rows) else p)
  else fs ++ [(t, rows)]

/-- Read the persisted table of ticker `t`. -/
def lookupFS (fs : FS) (t : String) : Option (List (StockRow × ℚ)) :=
  (fs.find? (fun p => p.1 == t)).map (·.2)

/-- The write the loop iteration of ticker `t` performs, if any: `none`
when the ticker is skipped or its processing (including persistence)
raises. -/
def tickerWrite (senti : String → ℚ) (stocks : List StockRow)
    (tweets : List TweetRow) (persistOk : String → Except String Unit)
    (t : String) : Option (List (StockRow × ℚ)) :=
  match processTicker senti stocks tweets persistOk t with
  | .ok (some rows) => some rows
  | _ => none

/-- `run_pipeline`: iterate over the distinct tickers of the price file;
persist each successfully processed ticker, skipping (never aborting on)
tickers that are empty or whose processing raises. -/
def run_pipeline (senti : String → ℚ) (persistOk : String → Except String Unit)
    (stocks : List StockRow) (tweets : List TweetRow) (fs : FS) : FS :=
  (uniqueTickers stocks).foldl (fun acc t =>
    match processTicker senti stocks tweets persistOk t with
    | .ok (some rows) => writeFS acc t rows
    | _ => acc) fs

/-! ## Opportunity scanner (`src/forecasting.py`) -/

/-- One row of a persisted per-ticker table as the scanner uses it: the
calendar month name derived from `Date`, the close price (`none` = NaN) and
the (always filled) daily sentiment. -/
structure ScanRow where
  month : String
  close : Option ℚ
  sentiment : ℚ
deriving DecidableEq, Repr

/-- The record's rows tagged with their simple daily return
(`df['Returns'] = df['Close'].pct_change()`, computed on the whole record
before the month filter; the first row's return is `none`). -/
def monthTagged (rec : List ScanRow) : List (ScanRow × Option ℚ) :=
  rec.zip (pctChange (rec.map (·.close)))

/-- The rows of the target month, with their returns. -/
def monthData (m : String) (rec : List ScanRow) : List (ScanRow × Option ℚ) :=
  (monthTagged rec).filter (fun x => x.1.month == m)

/-- `month_data['daily_sentiment'].mean()`. -/
def avgSentOf (m : String) (rec : List ScanRow) : ℚ :=
  lmean ((monthData m rec).map (fun x => x.1.sentiment))

/-- `len(month_data[month_data['Returns'] > 0])`: a NaN return is not
positive. -/
def countPos (md : List (ScanRow × Option ℚ)) : ℕ :=
  (md.filter (fun x => match x.2 with | some r => decide (0 < r) | none => false)).length

/-- One element of the scanner's ranked output. -/
structure Opportunity where
  ticker : String
  avgMonthlyReturn : Option ℚ
  avgSentiment : ℚ
  winRate : ℚ
deriving DecidableEq, Repr

/-- The non-NaN daily returns of the target month's rows (pandas `mean`
skips NaN entries). -/
def monthReturns (m : String) (rec : List ScanRow) : List ℚ :=
  (monthData m rec).filterMap (fun x => x.2)

/-- The scanner's loop body for one persisted ticker: `none` when the
target month has no rows or the sentiment-matching rule rejects the ticker.
`avgMonthlyReturn` is `none` exactly when every return of the month is NaN
(pandas `mean` skips NaN and is NaN only on an all-NaN column). -/
def opportunityFor (t : String) (m : String) (p : ℚ) (rec : List ScanRow) :
    Option Opportunity :=
  if monthData m rec = [] then none
  else if (0 ≤ p ∧ p - 1/5 ≤ avgSentOf m rec) ∨ (p < 0 ∧ avgSentOf m rec ≤ p + 1/5) then
    some ⟨t,
      (if monthReturns m rec = [] then none else some (lmean (monthReturns m rec) * 30)),
      avgSentOf m rec,
      (countPos (monthData m rec) : ℚ) / ((monthData m rec).length : ℚ)⟩
  else none

/-- Descending order on the ranking key, NaN (`none`) last — pandas
`sort_values(ascending=False)` with the default `na_position='last'`. -/
def keyGE : Option ℚ → Option ℚ → Bool
  | _, none => true
  | none, some _ => false
  | some x, some y => decide (y ≤ x)

/-- The sort relation of the scanner's final ranking. -/
def oppLE (a b : Opportunity) : Prop :=
  keyGE a.avgMonthlyReturn b.avgMonthlyReturn = true

instance : DecidableRel oppLE := fun a b => by
  unfold oppLE; infer_instance

instance : IsTotal Opportunity oppLE where
  total a b := by
    unfold oppLE keyGE
    cases ha : a.avgMonthlyReturn <;> cases hb : b.avgMonthlyReturn <;> simp
    exact le_total _ _

instance : IsTrans Opportunity oppLE where
  trans a b c hab hbc := by
    unfold oppLE keyGE at hab hbc ⊢
    cases ha : a.avgMonthlyReturn <;> cases hb : b.avgMonthlyReturn <;>
      cases hc : c.avgMonthlyReturn <;> rw [ha, hb] at hab <;> rw [hb, hc] at hbc <;>
      simp at hab hbc ⊢
    exact le_trans hbc hab

/-- `find_market_opportunities(target_month_name, min_sentiment)` over the
persisted store `db`: build an opportunity per matching ticker, then rank
descending by `Avg_Monthly_Return`. -/
def find_market_opportunities (db : List (String × List ScanRow)) (m : String)
    (p : ℚ) : List Opportunity :=
  List.insertionSort oppLE (db.filterMap (fun x => opportunityFor x.1 m p x.2))

/-! ## Specification-side definitions (comparison targets, from the claims'
own words, not from the source) -/

/-- The most recent non-null value at most `w` rows back from row `i`
(claim C1's description of the filled value). -/
def recentWithin (w : ℕ) (xs : Col) (i : ℕ) : Option ℚ :=
  ((xs.take i).reverse.take w).findSome? id

/-- Claim C6's description of the win rate: the record's first row (whose
daily return is undefined) is dropped from the computation, and the win
rate is the fraction of the remaining target-month rows with positive
return. -/
def winRateClaim (m : String) (rec : List ScanRow) : ℚ :=
  let md := ((monthTagged rec).drop 1).filter (fun x => x.1.month == m)
  (countPos md : ℚ) / (md.length : ℚ)

/-! ## Helper lemmas: frames and columns -/

theorem find?_map_setCol (l : Frame) (c c' : String) (v : Col)
    (h : (c == c') = false) :
    (l.map (fun p => if p.1 == c' then (c', v) else p)).find? (fun p => p.1 == c)
      = l.find? (fun p => p.1 == c) := by
  have hcc : (c' == c) = false :=
    beq_eq_false_iff_ne.mpr fun e => (beq_eq_false_iff_ne.mp h) e.symm
  induction l with
  | nil => rfl
  | cons p rest ih =>
    rw [List.map_cons]
    by_cases hp : p.1 = c'
    · have hb : (p.1 == c') = true := by simpa using hp
      have hpc : (p.1 == c) = false := by rw [hp]; exact hcc
      rw [if_pos hb]
      rw [List.find?_cons_of_neg _ (by simp [hcc]), List.find?_cons_of_neg _ (by simp [hpc])]
      exact ih
    · have hb : (p.1 == c') = false := beq_eq_false_iff_ne.mpr hp
      rw [if_neg (by simp [hb])]
      by_cases hc : p.1 = c
      · rw [List.find?_cons_of_pos _ (by simpa using hc),
          List.find?_cons_of_pos _ (by simpa using hc)]
      · rw [List.find?_cons_of_neg _ (by simp [beq_eq_false_iff_ne.mpr hc]),
          List.find?_cons_of_neg _ (by simp [beq_eq_false_iff_ne.mpr hc])]
        exact ih

theorem getCol_setCol_ne (df : Frame) (c c' : String) (v : Col)
    (h : (c == c') = false) :
    getCol (setCol df c' v) c = getCol df c := by
  have hcc : (c' == c) = false :=
    beq_eq_false_iff_ne.mpr fun e => (beq_eq_false_iff_ne.mp h) e.symm
  unfold setCol getCol
  by_cases ha : df.any (fun p => p.1 == c') = true
  · rw [if_pos ha, find?_map_setCol df c c' v h]
  · rw [if_neg ha, List.find?_append]
    have hnone : List.find? (fun p => p.1 == c) [(c', v)] = none := by
      simp [List.find?, hcc]
    rw [hnone, Option.or_none]

theorem dropna_nil_of_short (cc : Col) (h : cc.length < 2) :
    dropna (pctChange cc) = [] := by
  match cc, h with
  | [], _ => rfl
  | [x], _ =>
    cases x <;> rfl

/-- The frame returned by `calculate_risk_metrics` when a `Close` column is
present: the input with the derived `Returns` column written onto it. -/
theorem calc_frame_eq (df : Frame) (rf : ℚ) (cc : Col)
    (hc : getCol df "Close" = some cc) :
    (calculate_risk_metrics df rf).2 = setCol df "Returns" (pctChange cc) := by
  unfold calculate_risk_metrics
  rw [hc]
  by_cases h : dropna (pctChange cc) = [] <;> simp [h]

theorem calc_zeros_of_clean_nil (df : Frame) (rf : ℚ) (cc : Col)
    (hc : getCol df "Close" = some cc) (h : dropna (pctChange cc) = []) :
    (calculate_risk_metrics df rf).1 = ⟨0, some 0, some 0⟩ := by
  unfold calculate_risk_metrics
  rw [hc]
  simp [h]

theorem calc_zeros_of_no_close (df : Frame) (rf : ℚ)
    (hc : getCol df "Close" = none) :
    calculate_risk_metrics df rf = (⟨0, some 0, some 0⟩, df) := by
  unfold calculate_risk_metrics
  rw [hc]

/-! ## Claim C10 -/

/-- Claim C10: for every input frame without a `Close` column,
`calculate_risk_metrics` returns the zero-valued metrics
`{var_95: 0, volatility: 0, sharpe: 0}` instead of raising. -/
theorem C10_missing_close_absorbed (df : Frame) (rf : ℚ)
    (h : hasCol df "Close" = false) :
    (calculate_risk_metrics df rf).1 = ⟨0, some 0, some 0⟩ := by
  have hc : getCol df "Close" = none := by
    unfold hasCol at h
    exact Option.not_isSome_iff_eq_none.mp (by simp [h])
  rw [calc_zeros_of_no_close df rf hc]

theorem C10_missing_close_absorbed_witness :
    (calculate_risk_metrics [("Open", [some 1, some 2, some 3])] (1/50)).1
      = ⟨0, some 0, some 0⟩ :=
  C10_missing_close_absorbed [("Open", [some 1, some 2, some 3])] (1/50) (by decide)

/-! ## Claim C5 -/

/-- Claim C5: for every input with fewer than 2 rows (including an empty
frame), or whose derived daily-returns series is empty after `dropna`,
`calculate_risk_metrics` returns the zero-valued metrics; being a total
function of the embedding, it never raises.  (A zero close price would
produce a non-finite IEEE return in the source, outside this rational
embedding; the returns-empty disjunct therefore carries a nonzero-price
hypothesis.) -/
theorem C5_degenerate_inputs_zero_metrics (df : Frame) (rf : ℚ)
    (h : (∀ p ∈ df, p.2.length < 2) ∨
      (∃ cc, getCol df "Close" = some cc ∧ (∀ x ∈ cc, x ≠ some 0) ∧
        dropna (pctChange cc) = []) ∨
      getCol df "Close" = none) :
    (calculate_risk_metrics df rf).1 = ⟨0, some 0, some 0⟩ := by
  rcases h with h | ⟨cc, hc, _, hnil⟩ | hc
  · cases hg : getCol df "Close" with
    | none => rw [calc_zeros_of_no_close df rf hg]
    | some cc =>
      have hmem : ∃ p ∈ df, p.2 = cc := by
        unfold getCol at hg
        cases hf : df.find? (fun p => p.1 == "Close") with
        | none => rw [hf] at hg; simp at hg
        | some p =>
          rw [hf] at hg
          exact ⟨p, List.mem_of_find?_eq_some hf, by simpa using hg⟩
      rcases hmem with ⟨p, hp, hpcc⟩
      have hlen : cc.length < 2 := hpcc ▸ h p hp
      exact calc_zeros_of_clean_nil df rf cc hg (dropna_nil_of_short cc hlen)
  · exact calc_zeros_of_clean_nil df rf cc hc hnil
  · rw [calc_zeros_of_no_close df rf hc]

theorem C5_degenerate_inputs_zero_metrics_witness :
    (calculate_risk_metrics [("Close", [some 100])] (1/50)).1 = ⟨0, some 0, some 0⟩ :=
  C5_degenerate_inputs_zero_metrics [("Close", [some 100])] (1/50)
    (Or.inl (by decide))

/-! ## Claim C4 -/

theorem padCol_replicate (c : Option ℚ) (n : ℕ) (q : ℚ) :
    padCol c (List.replicate n (some q)) = List.replicate n (some q) := by
  induction n generalizing c with
  | zero => rfl
  | succ k ih =>
    rw [List.replicate_succ]
    rw [show padCol c (some q :: List.replicate k (some q))
        = some q :: padCol (some q) (List.replicate k (some q)) from rfl]
    rw [ih]

theorem zip_cons_self_replicate (k : ℕ) (a : Option ℚ) :
    List.zip (a :: List.replicate k a) (List.replicate k a)
      = List.replicate k (a, a) := by
  induction k with
  | zero => rfl
  | succ m ih =>
    rw [List.replicate_succ]
    rw [List.zip_cons_cons]
    exact congrArg ((a, a) :: ·) ih

theorem retCell_self (q : ℚ) :
    retCell (some q) (some q) = if q = 0 then none else some 0 := by
  unfold retCell
  by_cases h : q = 0 <;> simp [h]

theorem pctChange_replicate (n : ℕ) (q : ℚ) :
    pctChange (List.replicate n (some q)) =
      match n with
      | 0 => []
      | Nat.succ k => none :: List.replicate k (if q = 0 then none else some 0) := by
  unfold pctChange
  dsimp only
  rw [padCol_replicate]
  cases n with
  | zero => rfl
  | succ k =>
    have hz : List.zip (none :: List.replicate (k + 1) (some q))
        (List.replicate (k + 1) (some q))
        = ((none : Option ℚ), some q) ::
            List.replicate k ((some q : Option ℚ), (some q : Option ℚ)) := by
      conv_lhs => rw [List.replicate_succ]
      rw [List.zip_cons_cons]
      rw [zip_cons_self_replicate]
    rw [hz]
    rw [List.map_cons, List.map_replicate]
    rw [retCell_self]
    rfl

theorem dropna_cons_none (l : Col) : dropna (none :: l) = dropna l := rfl

theorem dropna_replicate_some (k : ℕ) (x : ℚ) :
    dropna (List.replicate k (some x)) = List.replicate k x := by
  induction k with
  | zero => rfl
  | succ m ih => rw [List.replicate_succ, List.replicate_succ, dropna, List.filterMap_cons]
                 exact congrArg (x :: ·) ih

theorem dropna_replicate_none (k : ℕ) :
    dropna (List.replicate k (none : Option ℚ)) = [] := by
  induction k with
  | zero => rfl
  | succ m ih => rw [List.replicate_succ, dropna, List.filterMap_cons]; exact ih

theorem getD_zero_of_all_zero (l : List ℚ) (h : ∀ x ∈ l, x = 0) (n : ℕ) :
    l.getD n 0 = 0 := by
  rw [List.getD_eq_getElem?_getD]
  cases hg : l[n]? with
  | none => rfl
  | some a =>
    have : a ∈ l := by
      rcases List.getElem?_eq_some.mp hg with ⟨hlt, he⟩
      exact he ▸ l.getElem_mem hlt
    simpa using h a this

theorem percentile_of_all_zero (xs : List ℚ) (h : ∀ x ∈ xs, x = 0) (q : ℚ) :
    percentile xs q = 0 := by
  unfold percentile
  dsimp only
  have hs : ∀ x ∈ List.insertionSort (fun a b => a ≤ b) xs, x = 0 := fun x hx =>
    h x ((List.mem_insertionSort _).mp hx)
  rw [getD_zero_of_all_zero _ hs, getD_zero_of_all_zero _ hs]
  ring

theorem lmean_replicate_zero (k : ℕ) : lmean (List.replicate k 0) = 0 := by
  unfold lmean
  rw [List.sum_replicate]
  simp

theorem svar_replicate_zero (k : ℕ) (hk : 2 ≤ k) :
    svar (List.replicate k (0 : ℚ)) = some 0 := by
  unfold svar
  rw [if_neg (by simpa using Nat.not_lt.mpr (by simpa using hk))]
  rw [lmean_replicate_zero, List.map_replicate]
  norm_num

/-- Counterexample to claim C4 as stated: on the 2-row constant-price frame
`Close = [100, 100]` the returns series is the single value `0`, whose
sample standard deviation (ddof = 1) is NaN, so the source returns NaN — not
`0` — for `volatility` and `sharpe`. -/
theorem C4_counterexample :
    (calculate_risk_metrics [("Close", [some 100, some 100])] (1/50)).1
      ≠ ⟨0, some 0, some 0⟩ := by
  intro h
  have hv : (calculate_risk_metrics [("Close", [some 100, some 100])] (1/50)).1.volatility
      = some 0 := by rw [h]
  have hn : (calculate_risk_metrics [("Close", [some 100, some 100])] (1/50)).1.volatility
      = none := rfl
  rw [hn] at hv
  exact Option.noConfusion hv

/-- Claim C4, amended: a constant-price series of at least **3** rows (so
that the returns series has the two observations a ddof-1 standard
deviation needs) yields exactly `{var_95: 0, volatility: 0, sharpe: 0}`;
and whenever the sample standard deviation of the returns is exactly 0,
`sharpe` is 0 rather than a division by zero.  (At exactly 2 equal rows the
source yields NaN volatility and sharpe — see the counterexample.) -/
theorem C4_constant_series_amended (df : Frame) (rf : ℚ) :
    (∀ n q, getCol df "Close" = some (List.replicate n (some q)) → 3 ≤ n →
      (calculate_risk_metrics df rf).1 = ⟨0, some 0, some 0⟩) ∧
    (∀ cc, getCol df "Close" = some cc → svar (dropna (pctChange cc)) = some 0 →
      (calculate_risk_metrics df rf).1.sharpe = some 0) := by
  constructor
  · intro n q hc hn
    obtain ⟨k, rfl⟩ : ∃ k, n = k + 1 := ⟨n - 1, by omega⟩
    by_cases hq : q = 0
    · have hnil : dropna (pctChange (List.replicate (k+1) (some q))) = [] := by
        rw [pctChange_replicate]
        rw [dropna_cons_none]
        rw [if_pos hq, dropna_replicate_none]
      exact calc_zeros_of_clean_nil df rf _ hc hnil
    · have hclean : dropna (pctChange (List.replicate (k+1) (some q)))
          = List.replicate k 0 := by
        rw [pctChange_replicate]
        rw [dropna_cons_none]
        rw [if_neg hq, dropna_replicate_some]
      have hk : 2 ≤ k := by omega
      have hne : dropna (pctChange (List.replicate (k+1) (some q))) ≠ [] := by
        rw [hclean]
        intro h
        have := congrArg List.length h
        simp at this
        omega
      unfold calculate_risk_metrics
      rw [hc]
      simp only [hne, if_false, reduceIte]
      have hvar : svar (dropna (pctChange (List.replicate (k+1) (some q)))) = some 0 := by
        rw [hclean]; exact svar_replicate_zero k hk
      have hpct : percentile (dropna (pctChange (List.replicate (k+1) (some q)))) 5 = 0 := by
        apply percentile_of_all_zero
        rw [hclean]
        intro x hx
        simpa using List.eq_of_mem_replicate hx
      rw [hvar, hpct]
      simp
  · intro cc hc hv
    have hne : dropna (pctChange cc) ≠ [] := by
      intro h
      rw [h] at hv
      exact Option.noConfusion hv
    unfold calculate_risk_metrics
    rw [hc]
    simp only [hne, if_false, reduceIte]
    rw [hv]
    simp

theorem C4_constant_series_amended_witness :
    (calculate_risk_metrics [("Close", List.replicate 3 (some 100))] (1/50)).1
      = ⟨0, some 0, some 0⟩ :=
  (C4_constant_series_amended [("Close", List.replicate 3 (some 100))] (1/50)).1
    3 100 (by decide) (by decide)

/-! ## Claim C2 -/

/-- Counterexample to claim C2 as stated: `calculate_risk_metrics` writes
the derived `Returns` column onto the caller's frame
(`df['Returns'] = df['Close'].pct_change()`), so on a frame holding only a
`Close` column the caller's record gains a column. -/
theorem C2_counterexample :
    (calculate_risk_metrics [("Close", [some 1, some 2])] (1/50)).2
      ≠ [("Close", [some 1, some 2])] := by
  have h2 : (calculate_risk_metrics [("Close", [some 1, some 2])] (1/50)).2
      = setCol [("Close", [some 1, some 2])] "Returns" (pctChange [some 1, some 2]) :=
    calc_frame_eq _ _ _ (by decide)
  have h3 : setCol [("Close", [some 1, some 2])] "Returns" (pctChange [some 1, some 2])
      = [("Close", [some 1, some 2]), ("Returns", pctChange [some 1, some 2])] := rfl
  intro h
  rw [h2, h3] at h
  have hl := congrArg List.length h
  simp at hl

/-- Claim C2, amended: computing the risk metrics is stateless except for
one frame effect — when a `Close` column exists the caller's record gains
(or has overwritten) exactly the derived `Returns` column; every other
column is unchanged, and a record without a `Close` column is returned
untouched. -/
theorem C2_returns_column_only_mutation (df : Frame) (rf : ℚ) :
    (hasCol df "Close" = false → (calculate_risk_metrics df rf).2 = df) ∧
    (∀ cc, getCol df "Close" = some cc →
      (calculate_risk_metrics df rf).2 = setCol df "Returns" (pctChange cc)) ∧
    (∀ c, (c == "Returns") = false →
      getCol ((calculate_risk_metrics df rf).2) c = getCol df c) := by
  refine ⟨?_, ?_, ?_⟩
  · intro h
    have hc : getCol df "Close" = none :=
      Option.not_isSome_iff_eq_none.mp (by simp [hasCol] at h; simp [h])
    rw [calc_zeros_of_no_close df rf hc]
  · intro cc hc
    exact calc_frame_eq df rf cc hc
  · intro c hcr
    cases hg : getCol df "Close" with
    | none => rw [calc_zeros_of_no_close df rf hg]
    | some cc =>
      rw [calc_frame_eq df rf cc hg]
      exact getCol_setCol_ne df c "Returns" (pctChange cc) hcr

theorem C2_returns_column_only_mutation_witness :
    (calculate_risk_metrics [("Close", [some 1, some 2])] (1/50)).2
        = setCol [("Close", [some 1, some 2])] "Returns"
            (pctChange [some 1, some 2]) ∧
      getCol ((calculate_risk_metrics [("Close", [some 1, some 2])] (1/50)).2) "Close"
        = getCol [("Close", [some 1, some 2])] "Close" :=
  ⟨(C2_returns_column_only_mutation [("Close", [some 1, some 2])] (1/50)).2.1
      [some 1, some 2] (by decide),
    (C2_returns_column_only_mutation [("Close", [some 1, some 2])] (1/50)).2.2
      "Close" (by decide)⟩

/-! ## Helper lemmas: the persisted store and the per-ticker loop -/

theorem find?_map_writeFS (l : FS) (c c' : String) (v : List (StockRow × ℚ))
    (h : (c == c') = false) :
    (l.map (fun p => if p.1 == c' then (c', v) else p)).find? (fun p => p.1 == c)
      = l.find? (fun p => p.1 == c) := by
  have hcc : (c' == c) = false :=
    beq_eq_false_iff_ne.mpr fun e => (beq_eq_false_iff_ne.mp h) e.symm
  induction l with
  | nil => rfl
  | cons p rest ih =>
    rw [List.map_cons]
    by_cases hp : p.1 = c'
    · have hb : (p.1 == c') = true := by simpa using hp
      have hpc : (p.1 == c) = false := by rw [hp]; exact hcc
      rw [if_pos hb]
      rw [List.find?_cons_of_neg _ (by simp [hcc]), List.find?_cons_of_neg _ (by simp [hpc])]
      exact ih
    · have hb : (p.1 == c') = false := beq_eq_false_iff_ne.mpr hp
      rw [if_neg (by simp [hb])]
      by_cases hc : p.1 = c
      · rw [List.find?_cons_of_pos _ (by simpa using hc),
          List.find?_cons_of_pos _ (by simpa using hc)]
      · rw [List.find?_cons_of_neg _ (by simp [beq_eq_false_iff_ne.mpr hc]),
          List.find?_cons_of_neg _ (by simp [beq_eq_false_iff_ne.mpr hc])]
        exact ih

theorem lookupFS_writeFS_ne (fs : FS) (t u : String) (rows : List (StockRow × ℚ))
    (h : (t == u) = false) :
    lookupFS (writeFS fs u rows) t = lookupFS fs t := by
  have huc : (u == t) = false :=
    beq_eq_false_iff_ne.mpr fun e => (beq_eq_false_iff_ne.mp h) e.symm
  unfold writeFS lookupFS
  by_cases ha : fs.any (fun p => p.1 == u) = true
  · rw [if_pos ha, find?_map_writeFS fs t u rows h]
  · rw [if_neg ha, List.find?_append]
    have hnone : List.find? (fun p => p.1 == t) [(u, rows)] = none := by
      simp [List.find?, huc]
    rw [hnone, Option.or_none]

theorem lookupFS_writeFS_self (fs : FS) (t : String) (rows : List (StockRow × ℚ)) :
    lookupFS (writeFS fs t rows) t = some rows := by
  unfold writeFS lookupFS
  by_cases ha : fs.any (fun p => p.1 == t) = true
  · rw [if_pos ha]
    induction fs with
    | nil => simp at ha
    | cons p rest ih =>
      rw [List.map_cons]
      by_cases hp : p.1 = t
      · have hb : (p.1 == t) = true := by simpa using hp
        rw [if_pos hb, List.find?_cons_of_pos _ (by simp)]
        rfl
      · have hb : (p.1 == t) = false := beq_eq_false_iff_ne.mpr hp
        rw [if_neg (by simp [hb]), List.find?_cons_of_neg _ (by simp [hb])]
        have ha' : rest.any (fun p => p.1 == t) = true := by
          rcases List.any_eq_true.mp ha with ⟨x, hx, hxt⟩
          rcases List.mem_cons.mp hx with rfl | hx'
          · exact absurd hxt (by simp [hb])
          · exact List.any_eq_true.mpr ⟨x, hx', hxt⟩
        exact ih ha'
  · rw [if_neg ha, List.find?_append]
    have hfs : fs.find? (fun p => p.1 == t) = none := by
      rw [List.find?_eq_none]
      intro x hx
      have := List.any_eq_false.mp (Bool.eq_false_iff.mpr ha) x hx
      simpa using this
    rw [hfs]
    simp [List.find?, Option.or]

/-- One iteration of the per-ticker loop, phrased through `tickerWrite`. -/
theorem pipeline_step_eq (senti : String → ℚ) (stocks : List StockRow)
    (tweets : List TweetRow) (persistOk : String → Except String Unit)
    (acc : FS) (t : String) :
    (match processTicker senti stocks tweets persistOk t with
      | .ok (some rows) => writeFS acc t rows
      | _ => acc)
      = match tickerWrite senti stocks tweets persistOk t with
        | some rows => writeFS acc t rows
        | none => acc := by
  unfold tickerWrite
  cases processTicker senti stocks tweets persistOk t with
  | error e => rfl
  | ok o => cases o <;> rfl

/-- What the pipeline's fold leaves at key `t`: `t`'s own write if the loop
visits `t` and `t`'s processing succeeds, otherwise whatever was there
before.  Other tickers' failures are invisible at `t`. -/
theorem pipeline_foldl_lookup (senti : String → ℚ) (stocks : List StockRow)
    (tweets : List TweetRow) (persistOk : String → Except String Unit) :
    ∀ (ts : List String) (fs : FS) (t : String),
      lookupFS (ts.foldl (fun acc u =>
          match processTicker senti stocks tweets persistOk u with
          | .ok (some rows) => writeFS acc u rows
          | _ => acc) fs) t
        = if t ∈ ts
          then (tickerWrite senti stocks tweets persistOk t).or (lookupFS fs t)
          else lookupFS fs t := by
  intro ts
  induction ts with
  | nil =>
    intro fs t
    simp
  | cons u ts ih =>
    intro fs t
    rw [List.foldl_cons, ih]
    rw [pipeline_step_eq]
    by_cases hut : t = u
    · subst hut
      have hstep : lookupFS (match tickerWrite senti stocks tweets persistOk t with
          | some rows => writeFS fs t rows
          | none => fs) t
          = (tickerWrite senti stocks tweets persistOk t).or (lookupFS fs t) := by
        cases tickerWrite senti stocks tweets persistOk t with
        | none => simp [Option.or]
        | some w => simpa [Option.or] using lookupFS_writeFS_self fs t w
      by_cases hts : t ∈ ts
      · rw [if_pos hts, if_pos (List.mem_cons_self t ts), hstep]
        cases tickerWrite senti stocks tweets persistOk t <;> simp [Option.or]
      · rw [if_neg hts, if_pos (List.mem_cons_self t ts), hstep]
    · have hstep : lookupFS (match tickerWrite senti stocks tweets persistOk u with
          | some rows => writeFS fs u rows
          | none => fs) t = lookupFS fs t := by
        cases tickerWrite senti stocks tweets persistOk u with
        | none => rfl
        | some w => exact lookupFS_writeFS_ne fs t u w (beq_eq_false_iff_ne.mpr hut)
      rw [hstep]
      by_cases hts : t ∈ ts
      · rw [if_pos hts, if_pos (List.mem_cons_of_mem u hts)]
      · rw [if_neg hts, if_neg (by simp [hut, hts])]

/-! ## Claim C8 -/

/-- Claim C8: even when some ticker's per-ticker processing raises an
error, every other ticker of the run whose own processing (including
persistence) succeeds is still processed and persisted — one ticker's
failure never aborts the batch. -/
theorem C8_ticker_failure_isolated (senti : String → ℚ)
    (persistOk : String → Except String Unit) (stocks : List StockRow)
    (tweets : List TweetRow) (fs : FS) (u t : String) (e : String)
    (rows : List (StockRow × ℚ))
    (hu : u ∈ uniqueTickers stocks)
    (herr : processTicker senti stocks tweets persistOk u = .error e)
    (ht : t ∈ uniqueTickers stocks)
    (hok : processTicker senti stocks tweets persistOk t = .ok (some rows)) :
    lookupFS (run_pipeline senti persistOk stocks tweets fs) t = some rows := by
  unfold run_pipeline
  rw [pipeline_foldl_lookup, if_pos ht]
  have htw : tickerWrite senti stocks tweets persistOk t = some rows := by
    unfold tickerWrite
    rw [hok]
  rw [htw]
  rfl

theorem C8_ticker_failure_isolated_witness :
    lookupFS (run_pipeline (fun _ => 0)
        (fun t => if t == "BBB" then Except.error "disk full" else Except.ok ())
        [⟨"AAA", 1, [Cell.num 100]⟩, ⟨"BBB", 1, [Cell.text "oops"]⟩] [] []) "AAA"
      = some [(⟨"AAA", 1, [Cell.num 100]⟩, 0)] :=
  C8_ticker_failure_isolated (fun _ => 0)
    (fun t => if t == "BBB" then Except.error "disk full" else Except.ok ())
    [⟨"AAA", 1, [Cell.num 100]⟩, ⟨"BBB", 1, [Cell.text "oops"]⟩] [] []
    "BBB" "AAA" "disk full" [(⟨"AAA", 1, [Cell.num 100]⟩, 0)]
    (by decide) (by rfl) (by decide) (by rfl)

/-! ## Claim C9 -/

/-- Claim C9: running the fusion pipeline twice on identical price and post
inputs leaves every ticker's persisted record identical to what the first
run persisted (the second run's full overwrite is value-identical). -/
theorem C9_pipeline_idempotent (senti : String → ℚ)
    (persistOk : String → Except String Unit) (stocks : List StockRow)
    (tweets : List TweetRow) (fs : FS) (t : String) :
    lookupFS (run_pipeline senti persistOk stocks tweets
        (run_pipeline senti persistOk stocks tweets fs)) t
      = lookupFS (run_pipeline senti persistOk stocks tweets fs) t := by
  unfold run_pipeline
  rw [pipeline_foldl_lookup, pipeline_foldl_lookup]
  by_cases h : t ∈ uniqueTickers stocks
  · simp only [if_pos h]
    cases tickerWrite senti stocks tweets persistOk t <;> simp [Option.or]
  · simp only [if_neg h]

/-! ## Helper lemmas: the 7-row forward-fill window (claim C1) -/

theorem lastSomeVal_append_some (pre : Col) (v : ℚ) :
    lastSomeVal (pre ++ [some v]) = some v := by
  unfold lastSomeVal
  rw [List.reverse_append]
  rfl

theorem lastSomeVal_append_none (pre : Col) :
    lastSomeVal (pre ++ [none]) = lastSomeVal pre := by
  unfold lastSomeVal
  rw [List.reverse_append]
  rfl

theorem trailingNones_append_some (pre : Col) (v : ℚ) :
    trailingNones (pre ++ [some v]) = 0 := by
  unfold trailingNones
  rw [List.reverse_append]
  rfl

theorem trailingNones_append_none (pre : Col) :
    trailingNones (pre ++ [none]) = trailingNones pre + 1 := by
  unfold trailingNones
  rw [List.reverse_append]
  rw [show ([none] : Col).reverse ++ pre.reverse = none :: pre.reverse from rfl]
  rw [List.takeWhile_cons_of_pos (by rfl)]
  rfl

theorem ffillGo_length (limit : ℕ) (l : Col) :
    ∀ (c : Option ℚ) (g : ℕ), (ffillGo limit c g l).length = l.length := by
  induction l with
  | nil => intro c g; rfl
  | cons x rest ih =>
    intro c g
    cases x with
    | some v =>
      rw [show ffillGo limit c g (some v :: rest)
          = some v :: ffillGo limit (some v) 0 rest from rfl]
      rw [List.length_cons, List.length_cons, ih]
    | none =>
      rw [show ffillGo limit c g (none :: rest)
          = (if g < limit then c else none) :: ffillGo limit c (g + 1) rest from rfl]
      rw [List.length_cons, List.length_cons, ih]

/-- A bounded window search `take n` after reversing is a full backward
search cut off at `n` consecutive nulls. -/
theorem findSome?_take_window (r : Col) :
    ∀ n : ℕ, (r.take n).findSome? id
      = if (r.takeWhile (fun x => x.isNone)).length < n
        then r.findSome? id else none := by
  induction r with
  | nil =>
    intro n
    cases n <;> simp
  | cons a r ih =>
    intro n
    cases n with
    | zero => simp
    | succ m =>
      cases a with
      | some v =>
        rw [List.take_succ_cons]
        rw [List.findSome?_cons]
        rw [show (List.takeWhile (fun x => x.isNone) (some v :: r)) = [] from rfl]
        simp [List.findSome?_cons]
      | none =>
        rw [List.take_succ_cons]
        rw [show List.findSome? id ((none : Option ℚ) :: r.take m)
            = List.findSome? id (r.take m) from rfl]
        rw [ih m]
        rw [show List.takeWhile (fun x => x.isNone) ((none : Option ℚ) :: r)
            = none :: List.takeWhile (fun x => x.isNone) r from rfl]
        rw [show List.findSome? id ((none : Option ℚ) :: r)
            = List.findSome? id r from rfl]
        rw [List.length_cons]
        by_cases hlt : (List.takeWhile (fun x => x.isNone) r).length < m
        · rw [if_pos hlt, if_pos (Nat.succ_lt_succ hlt)]
        · rw [if_neg hlt, if_neg (fun hc => hlt (Nat.lt_of_succ_lt_succ hc))]

/-- The forward scan `ffillGo 7` agrees pointwise with the backward 7-row
window search: the scan state after a consumed prefix `pre` is
`(lastSomeVal pre, trailingNones pre)`. -/
theorem ffillGo_spec (xs : Col) :
    ∀ (pre : Col) (i : ℕ), i < xs.length →
      (ffillGo 7 (lastSomeVal pre) (trailingNones pre) xs).getD i none
        = match xs.getD i none with
          | some v => some v
          | none => ((pre ++ xs.take i).reverse.take 7).findSome? id := by
  induction xs with
  | nil =>
    intro pre i hi
    exact absurd hi (by simp)
  | cons x rest ih =>
    intro pre i hi
    cases i with
    | zero =>
      cases x with
      | some v => rfl
      | none =>
        rw [show ffillGo 7 (lastSomeVal pre) (trailingNones pre) (none :: rest)
            = (if trailingNones pre < 7 then lastSomeVal pre else none)
                :: ffillGo 7 (lastSomeVal pre) (trailingNones pre + 1) rest from rfl]
        rw [show (((if trailingNones pre < 7 then lastSomeVal pre else none)
              :: ffillGo 7 (lastSomeVal pre) (trailingNones pre + 1) rest).getD 0 none)
            = (if trailingNones pre < 7 then lastSomeVal pre else none) from rfl]
        rw [show (((none : Option ℚ) :: rest).getD 0 none) = none from rfl]
        rw [List.take_zero, List.append_nil]
        rw [findSome?_take_window pre.reverse 7]
        rfl
    | succ j =>
      have hj : j < rest.length := by simpa using hi
      cases x with
      | some v =>
        have key := ih (pre ++ [some v]) j hj
        rw [lastSomeVal_append_some, trailingNones_append_some] at key
        rw [show ffillGo 7 (lastSomeVal pre) (trailingNones pre) (some v :: rest)
            = some v :: ffillGo 7 (some v) 0 rest from rfl]
        rw [List.getD_cons_succ, List.getD_cons_succ]
        rw [key]
        cases hx : rest.getD j none with
        | some w => rfl
        | none =>
          rw [List.take_succ_cons]
          rw [show pre ++ some v :: rest.take j
              = (pre ++ [some v]) ++ rest.take j from by
            rw [List.append_assoc]; rfl]
      | none =>
        have key := ih (pre ++ [none]) j hj
        rw [lastSomeVal_append_none, trailingNones_append_none] at key
        rw [show ffillGo 7 (lastSomeVal pre) (trailingNones pre) (none :: rest)
            = (if trailingNones pre < 7 then lastSomeVal pre else none)
                :: ffillGo 7 (lastSomeVal pre) (trailingNones pre + 1) rest from rfl]
        rw [List.getD_cons_succ, List.getD_cons_succ]
        rw [key]
        cases hx : rest.getD j none with
        | some w => rfl
        | none =>
          rw [List.take_succ_cons]
          rw [show pre ++ (none : Option ℚ) :: rest.take j
              = (pre ++ [none]) ++ rest.take j from by
            rw [List.append_assoc]; rfl]

/-! ## Claim C1 -/

/-- Claim C1: on the date-sorted sentiment column, the pipeline's
`ffill(limit=7)` + `fillna(0)` stage leaves every non-null row unchanged,
replaces a null row by the most recent non-null value at most 7 rows back,
and persists exactly `0` for a row that is 8 or more rows after the last
non-null sentiment or has no prior non-null sentiment at all; the column's
length is preserved. -/
theorem C1_sentiment_forward_fill_window (xs : Col) (i : ℕ) (hi : i < xs.length) :
    (marketMemory xs).length = xs.length ∧
    (marketMemory xs).getD i 0
      = match xs.getD i none with
        | some v => v
        | none => (recentWithin 7 xs i).getD 0 := by
  have hflen : (ffillLimit 7 xs).length = xs.length := ffillGo_length 7 xs none 0
  constructor
  · rw [show marketMemory xs = (ffillLimit 7 xs).map (fun x => x.getD 0) from rfl]
    rw [List.length_map, hflen]
  · have hi' : i < (ffillLimit 7 xs).length := by rw [hflen]; exact hi
    have hspec := ffillGo_spec xs [] i hi
    rw [List.nil_append] at hspec
    cases h1 : (ffillLimit 7 xs)[i]? with
    | none => exact absurd (List.getElem?_eq_none_iff.mp h1) (Nat.not_le.mpr hi')
    | some a =>
      have hL : (marketMemory xs).getD i 0 = a.getD 0 := by
        rw [show marketMemory xs = (ffillLimit 7 xs).map (fun x => x.getD 0) from rfl]
        rw [List.getD_eq_getElem?_getD, List.getElem?_map, h1]
        rfl
      have hR : (ffillLimit 7 xs).getD i none = a := by
        rw [List.getD_eq_getElem?_getD, h1]
        rfl
      rw [hL]
      rw [show ffillGo 7 (lastSomeVal []) (trailingNones []) xs = ffillLimit 7 xs
        from rfl] at hspec
      rw [hR] at hspec
      cases hx : xs.getD i none with
      | some v =>
        rw [hx] at hspec
        rw [hspec]
        rfl
      | none =>
        rw [hx] at hspec
        rw [hspec]
        rfl

theorem C1_sentiment_forward_fill_window_witness :
    (marketMemory [some 1, none, none, none, none, none, none, none, none]).getD 7 0
        = 1 ∧
      (marketMemory [some 1, none, none, none, none, none, none, none, none]).getD 8 0
        = 0 :=
  ⟨((C1_sentiment_forward_fill_window
        [some 1, none, none, none, none, none, none, none, none] 7
        (by decide)).2).trans (by decide),
    ((C1_sentiment_forward_fill_window
        [some 1, none, none, none, none, none, none, none, none] 8
        (by decide)).2).trans (by decide)⟩

/-! ## Claim C7 -/

/-- Claim C7: the scan's result is always sorted in descending order of
`avg_monthly_return` (NaN last, pandas default), and when no ticker matches
— in particular when no persisted data exists at all — the result is the
empty sequence, never an error. -/
theorem C7_scan_ranked_descending (db : List (String × List ScanRow)) (m : String)
    (p : ℚ) :
    List.Sorted oppLE (find_market_opportunities db m p) ∧
    ((∀ x ∈ db, opportunityFor x.1 m p x.2 = none) →
      find_market_opportunities db m p = []) ∧
    find_market_opportunities [] m p = [] := by
  refine ⟨List.sorted_insertionSort oppLE _, ?_, rfl⟩
  intro h
  unfold find_market_opportunities
  rw [List.filterMap_eq_nil_iff.mpr h]
  rfl

theorem C7_scan_ranked_descending_witness :
    find_market_opportunities [("X", [⟨"March", some 1, 0⟩])] "November" 0 = [] :=
  (C7_scan_ranked_descending [("X", [⟨"March", some 1, 0⟩])] "November" 0).2.1
    (by decide)

/-! ## Claim C3 -/

/-- Claim C3: for a persisted ticker whose target-month row set is
nonempty, the scan includes the ticker exactly when the filtered-month
average sentiment `s` satisfies the asymmetric band: for `p ≥ 0` inclusion
iff `s ≥ p − 0.2`, for `p < 0` inclusion iff `s ≤ p + 0.2`; moreover any
opportunity the matcher produces appears in the ranked output of every
store containing that ticker's record. -/
theorem C3_sentiment_band (m : String) (p : ℚ) (t : String) (rec : List ScanRow)
    (hne : monthData m rec ≠ []) :
    ((opportunityFor t m p rec).isSome = true ↔
      ((0 ≤ p ∧ p - 1/5 ≤ avgSentOf m rec) ∨ (p < 0 ∧ avgSentOf m rec ≤ p + 1/5))) ∧
    (∀ db o, (t, rec) ∈ db → opportunityFor t m p rec = some o →
      o ∈ find_market_opportunities db m p) := by
  constructor
  · unfold opportunityFor
    rw [if_neg hne]
    by_cases hband : (0 ≤ p ∧ p - 1/5 ≤ avgSentOf m rec) ∨
        (p < 0 ∧ avgSentOf m rec ≤ p + 1/5)
    · rw [if_pos hband]
      exact iff_of_true rfl hband
    · rw [if_neg hband]
      exact iff_of_false (by simp) hband
  · intro db o hmem hsome
    unfold find_market_opportunities
    exact ((List.perm_insertionSort oppLE _).mem_iff).mpr
      (List.mem_filterMap.mpr ⟨(t, rec), hmem, hsome⟩)

theorem C3_sentiment_band_witness :
    (opportunityFor "AAA" "November" (1/2)
        [⟨"November", some 1, 7/20⟩, ⟨"November", some 2, 7/20⟩]).isSome = true :=
  (C3_sentiment_band "November" (1/2) "AAA"
      [⟨"November", some 1, 7/20⟩, ⟨"November", some 2, 7/20⟩]
      (by decide)).1.mpr
    (Or.inl ⟨by norm_num, by
      rw [show avgSentOf "November"
            [⟨"November", some 1, 7/20⟩, ⟨"November", some 2, 7/20⟩] = 7/20 from by
          norm_num [avgSentOf, monthData, monthTagged, pctChange, padCol, retCell, lmean]]
      norm_num⟩)

/-! ## Claim C6 -/

/-- Counterexample to claim C6 as stated: on a two-row record whose rows
are both in the target month, the included ticker's persisted `win_rate` is
`1/2` — the first row's undefined return stays in the denominator — while
the claim's first-row-dropped fraction is `1`. -/
theorem C6_counterexample :
    (find_market_opportunities
        [("TST", [⟨"November", some 1, 0⟩, ⟨"November", some 2, 0⟩])] "November" 0).map
        (fun o => o.winRate) = [1/2] ∧
    winRateClaim "November" [⟨"November", some 1, 0⟩, ⟨"November", some 2, 0⟩] = 1 ∧
    (1/2 : ℚ) ≠ 1 := by
  refine ⟨?_, ?_, by norm_num⟩
  · have h : opportunityFor "TST" "November" 0
        [⟨"November", some 1, 0⟩, ⟨"November", some 2, 0⟩]
        = some ⟨"TST", some 30, 0, 1/2⟩ := by
      norm_num [opportunityFor, monthData, monthTagged, pctChange, padCol, retCell,
        avgSentOf, lmean, countPos, monthReturns, List.filterMap_cons, List.filterMap_nil]
      intro hbad
      exact absurd hbad (List.cons_ne_nil _ _)
    unfold find_market_opportunities
    rw [List.filterMap_cons, h, List.filterMap_nil]
    rfl
  · norm_num [winRateClaim, monthTagged, pctChange, padCol, retCell, countPos]

/-- Claim C6, amended: for every ticker included by the scan, `win_rate` is
the number of target-month rows with positive daily return divided by the
number of **all** target-month rows: the record's first row (whose return
is undefined) stays in the denominator — its NaN return merely never counts
as positive — rather than being dropped; consequently `win_rate` lies in
[0, 1]. -/
theorem C6_win_rate_amended (t m : String) (p : ℚ) (rec : List ScanRow)
    (o : Opportunity) (h : opportunityFor t m p rec = some o) :
    o.winRate = (countPos (monthData m rec) : ℚ) / ((monthData m rec).length : ℚ) ∧
    0 ≤ o.winRate ∧ o.winRate ≤ 1 := by
  have hmd : ¬ monthData m rec = [] := by
    intro hnil
    unfold opportunityFor at h
    rw [if_pos hnil] at h
    exact Option.noConfusion h
  have hwr : o.winRate
      = (countPos (monthData m rec) : ℚ) / ((monthData m rec).length : ℚ) := by
    unfold opportunityFor at h
    rw [if_neg hmd] at h
    by_cases hband : (0 ≤ p ∧ p - 1/5 ≤ avgSentOf m rec) ∨
        (p < 0 ∧ avgSentOf m rec ≤ p + 1/5)
    · rw [if_pos hband] at h
      rw [← Option.some.inj h]
    · rw [if_neg hband] at h
      exact Option.noConfusion h
  refine ⟨hwr, ?_, ?_⟩
  · rw [hwr]
    exact div_nonneg (Nat.cast_nonneg _) (Nat.cast_nonneg _)
  · rw [hwr]
    have hlen : 0 < ((monthData m rec).length : ℚ) := by
      exact_mod_cast List.length_pos.mpr hmd
    rw [div_le_one hlen]
    have hcount : countPos (monthData m rec) ≤ (monthData m rec).length :=
      List.length_filter_le _ _
    exact_mod_cast hcount

theorem C6_win_rate_amended_witness :
    (⟨"TST", some 30, 0, 1/2⟩ : Opportunity).winRate
        = (countPos (monthData "November"
            [⟨"November", some 1, 0⟩, ⟨"November", some 2, 0⟩]) : ℚ)
          / ((monthData "November"
            [⟨"November", some 1, 0⟩, ⟨"November", some 2, 0⟩]).length : ℚ) ∧
      0 ≤ (⟨"TST", some 30, 0, 1/2⟩ : Opportunity).winRate ∧
      (⟨"TST", some 30, 0, 1/2⟩ : Opportunity).winRate ≤ 1 :=
  C6_win_rate_amended "TST" "November" 0
    [⟨"November", some 1, 0⟩, ⟨"November", some 2, 0⟩] ⟨"TST", some 30, 0, 1/2⟩
    (by
      norm_num [opportunityFor, monthData, monthTagged, pctChange, padCol, retCell,
        avgSentOf, lmean, countPos, monthReturns, List.filterMap_cons, List.filterMap_nil]
      intro hbad
      exact absurd hbad (List.cons_ne_nil _ _))
